import Mathlib

/-!
Verification development for the ATTiny-Relay-Bypass controller (src/main.c).

The tick handler `ISR(TIMER1_COMPA_vect)` is embedded as a pure step
function `tick : Bool → St → St` consuming the raw switch sample for the
tick (`pressed = true` means the active-low input `PINB2` reads 0), and the
main-loop body is embedded as `render : St → Outputs`.

The five bits of the C `state` byte (`SP`, `SS`, `LS`, `PO`, `TS`) are
modelled as the Bool fields `sp`, `ss`, `ls`, `po`, `ts`; the bit
operations in the C source only ever set, clear or test single bits, so
this representation is exact.  The C counters (`int` / `unsigned short`)
are modelled as `Nat`: every value reachable from startup stays far below
any machine-integer bound (`intr_count ≤ MOMENTARY_DELAY`,
`pulse_counter ≤ LATCHING_TIME`, `brightness_control ≤ 254`), so no
overflow wrapping is observable.  The write `TCNT0 = 0` resets the
hardware PWM phase counter and touches no modelled state, so it is
omitted.
-/

namespace RelayBypass

/-- constant `MOMENTARY_DELAY` from main.c (ticks of hold before momentary mode). -/
def MOMENTARY_DELAY : Nat := 400

/-- constant `LATCHING_TIME` from main.c (latching-relay pulse width in ticks). -/
def LATCHING_TIME : Nat := 3

/-- controller state: the C globals `state` (bits SP, SS, LS, PO, TS),
`brightness_control`, `brighness_up`, `pulse_counter`, `intr_count`. -/
structure St where
  sp : Bool
  ss : Bool
  ls : Bool
  po : Bool
  ts : Bool
  brightness_control : Nat
  brighness_up : Bool
  pulse_counter : Nat
  intr_count : Nat
deriving Repr, DecidableEq

/-- startup state: `state = 0b00000`, `brightness_control = 0`,
`brighness_up = 1`, `pulse_counter = 0`, `intr_count = 0`. -/
def sInit : St :=
  { sp := false, ss := false, ls := false, po := false, ts := false,
    brightness_control := 0, brighness_up := true,
    pulse_counter := 0, intr_count := 0 }

/-- concrete state used to exhibit the shimmer reset: mid-ramp brightness,
switch released, pedal off. -/
def s7a : St :=
  { sp := false, ss := false, ls := false, po := false, ts := false,
    brightness_control := 100, brighness_up := true,
    pulse_counter := 0, intr_count := 0 }

/-- the same state as `s7a` except the switch was already pressed. -/
def s7b : St :=
  { sp := false, ss := true, ls := false, po := false, ts := false,
    brightness_control := 100, brighness_up := true,
    pulse_counter := 0, intr_count := 0 }

/-- the shimmer update at the end of the ISR: one triangle-wave step of
`(brightness_control, brighness_up)`. -/
def bstep (bc : Nat) (up : Bool) : Nat × Bool :=
  if up then
    (if bc < 254 then (bc + 1, up) else (bc, false))
  else
    (if bc > 10 then (bc - 1, up) else (bc, true))

/-- iterated triangle-wave step, seeded with a brightness pair. -/
def bIter : Nat → Nat × Bool → Nat × Bool
  | 0, p => p
  | n + 1, p => bstep (bIter n p).1 (bIter n p).2

/-- brightness pair within the steady-state band `[10, 254]`. -/
def inRange (p : Nat × Bool) : Prop := 10 ≤ p.1 ∧ p.1 ≤ 254

/-- invariant tying the ramp direction to the lower bound: the brightness
is capped at 254, and a falling ramp never goes below 10. -/
def goodB (p : Nat × Bool) : Prop := p.1 ≤ 254 ∧ (p.2 = false → 10 ≤ p.1)

/-- the first statement of the ISR: when `intr_count` has reached
`MOMENTARY_DELAY`, set the TS bit and reset the counter, else increment.
Returns the new `(ts, intr_count)` pair. -/
def hstep (ts : Bool) (n : Nat) : Bool × Nat :=
  if n = MOMENTARY_DELAY then (true, 0) else (ts, n + 1)

/-- the last statement of the ISR: while the SP bit is set and
`pulse_counter < LATCHING_TIME`, increment the counter; otherwise zero the
counter and clear SP.  Returns the new `(pulse_counter, sp)` pair. -/
def pstep (sp2 : Bool) (pc : Nat) : Nat × Bool :=
  if sp2 && decide (pc < LATCHING_TIME) then (pc + 1, sp2) else (0, false)

/-- the body of `ISR(TIMER1_COMPA_vect)`, translated statement by statement.
`pressed` is the raw sample of the active-low switch input for this tick. -/
def tick (pressed : Bool) (s : St) : St :=
  -- count for the momentary delay
  let ts1 : Bool := (hstep s.ts s.intr_count).1
  let intr1 : Nat := (hstep s.ts s.intr_count).2
  -- set the last state bit equal to the current state
  let ls1 : Bool := s.ss
  -- run through the FSM; the tuple is (ss, po, sp, ts, intr_count, brightness_control)
  let fsm : Bool × Bool × Bool × Bool × Nat × Nat :=
    if pressed then
      if ls1 = false then
        if s.po = false then
          (true, true, true, false, 0, 0)
        else
          (true, false, true, ts1, intr1, s.brightness_control)
      else
        (true, s.po, s.sp, ts1, intr1, s.brightness_control)
    else
      if ls1 && s.po && ts1 then
        (false, false, true, ts1, intr1, s.brightness_control)
      else
        (false, s.po, s.sp, ts1, intr1, s.brightness_control)
  match fsm with
  | (ss2, po2, sp2, ts2, intr2, bc2) =>
    -- shimmery LED funtimes
    let b3 : Nat × Bool := bstep bc2 s.brighness_up
    -- increment pulse counter until LATCHING_TIME has elapsed, then reset
    let pulse : Nat × Bool := pstep sp2 s.pulse_counter
    { sp := pulse.2, ss := ss2, ls := ls1, po := po2, ts := ts2,
      brightness_control := b3.1, brighness_up := b3.2,
      pulse_counter := pulse.1, intr_count := intr2 }

/-- the trajectory of the tick handler: `run u s n` is the state after `n`
ticks from `s`, the tick consuming input `u j` taking `run u s j` to
`run u s (j+1)`. -/
def run (u : Nat → Bool) (s : St) : Nat → St
  | 0 => s
  | n + 1 => tick (u n) (run u s n)

/-- the trajectory with the switch held down on every tick. -/
def holdRun (s : St) : Nat → St := run (fun _ => true) s

/-- the exact condition under which the FSM part of a tick sets SP: a
rising press edge, or a momentary release (falling edge with pedal on and
TS set, TS as updated by the hold counter on this very tick). -/
def armCond (b : Bool) (s : St) : Prop :=
  (b = true ∧ s.ss = false) ∨
  (b = false ∧ s.ss = true ∧ s.po = true ∧ (hstep s.ts s.intr_count).1 = true)

instance (b : Bool) (s : St) : Decidable (armCond b s) := by
  unfold armCond
  infer_instance

/-- physical outputs written by one iteration of the main loop:
`PB3` (active-high relay), `PB1` (static LED), `PB5` (active-low relay,
the reset pin), `PB4` (latching relay), and the PWM compare value `OCR0A`
(blinky-LED brightness). -/
structure Outputs where
  relay_active_high : Bool
  static_led : Bool
  relay_active_low : Bool
  latching_relay : Bool
  ocr0a : Nat
deriving Repr, DecidableEq

/-- the body of the `while (1)` loop in `main`, as a function of the state
it reads. -/
def render (s : St) : Outputs :=
  let pedal : Bool × Bool × Bool × Nat :=
    if s.po then
      (true, true, false, if s.ss then s.brightness_control else 255)
    else
      (false, false, true, 0)
  { relay_active_high := pedal.1, static_led := pedal.2.1,
    relay_active_low := pedal.2.2.1, ocr0a := pedal.2.2.2,
    latching_relay := decide (s.pulse_counter ≠ 0) }

/-! Characterization lemmas: `tick` split along the four FSM branches. -/

/-- rising press edge with the pedal off (C branch `state 100x`). -/
theorem tick_press_off (s : St) (hss : s.ss = false) (hpo : s.po = false) :
    tick true s =
      { sp := (pstep true s.pulse_counter).2, ss := true, ls := false,
        po := true, ts := false,
        brightness_control := (bstep 0 s.brighness_up).1,
        brighness_up := (bstep 0 s.brighness_up).2,
        pulse_counter := (pstep true s.pulse_counter).1,
        intr_count := 0 } := by
  obtain ⟨sp0, ss0, ls0, po0, ts0, bc0, up0, pc0, n0⟩ := s
  simp only at hss hpo
  subst hss hpo
  simp [tick]

/-- rising press edge with the pedal on (C branch `state 101x`). -/
theorem tick_press_on (s : St) (hss : s.ss = false) (hpo : s.po = true) :
    tick true s =
      { sp := (pstep true s.pulse_counter).2, ss := true, ls := false,
        po := false, ts := (hstep s.ts s.intr_count).1,
        brightness_control := (bstep s.brightness_control s.brighness_up).1,
        brighness_up := (bstep s.brightness_control s.brighness_up).2,
        pulse_counter := (pstep true s.pulse_counter).1,
        intr_count := (hstep s.ts s.intr_count).2 } := by
  obtain ⟨sp0, ss0, ls0, po0, ts0, bc0, up0, pc0, n0⟩ := s
  simp only at hss hpo
  subst hss hpo
  simp [tick]

/-- pressed tick that is not an edge (the FSM body is skipped). -/
theorem tick_held (s : St) (hss : s.ss = true) :
    tick true s =
      { sp := (pstep s.sp s.pulse_counter).2, ss := true, ls := true,
        po := s.po, ts := (hstep s.ts s.intr_count).1,
        brightness_control := (bstep s.brightness_control s.brighness_up).1,
        brighness_up := (bstep s.brightness_control s.brighness_up).2,
        pulse_counter := (pstep s.sp s.pulse_counter).1,
        intr_count := (hstep s.ts s.intr_count).2 } := by
  obtain ⟨sp0, ss0, ls0, po0, ts0, bc0, up0, pc0, n0⟩ := s
  simp only at hss
  subst hss
  simp [tick]

/-- released tick: the momentary-release branch fires exactly when the
guard `LS && PO && TS` (with TS as updated by `hstep`) holds. -/
theorem tick_release (s : St) :
    tick false s =
      { sp := (pstep (s.sp || (s.ss && s.po && (hstep s.ts s.intr_count).1))
                 s.pulse_counter).2,
        ss := false, ls := s.ss,
        po := s.po && !(s.ss && s.po && (hstep s.ts s.intr_count).1),
        ts := (hstep s.ts s.intr_count).1,
        brightness_control := (bstep s.brightness_control s.brighness_up).1,
        brighness_up := (bstep s.brightness_control s.brighness_up).2,
        pulse_counter := (pstep (s.sp || (s.ss && s.po && (hstep s.ts s.intr_count).1))
                            s.pulse_counter).1,
        intr_count := (hstep s.ts s.intr_count).2 } := by
  obtain ⟨sp0, ss0, ls0, po0, ts0, bc0, up0, pc0, n0⟩ := s
  rcases hg : (ss0 && po0 && (hstep ts0 n0).1) with _ | _ <;>
    simp [tick, hg]

/-! Helper lemmas about the sub-steps and single ticks. -/

theorem pstep_false (pc : Nat) : pstep false pc = (0, false) := by
  simp [pstep]

theorem pstep_true_lt (pc : Nat) (h : pc < LATCHING_TIME) :
    pstep true pc = (pc + 1, true) := by
  simp [pstep, h]

theorem pstep_true_ge (pc : Nat) (h : ¬ pc < LATCHING_TIME) :
    pstep true pc = (0, false) := by
  simp [pstep, h]

theorem pstep_snd_imp (a : Bool) (pc : Nat) (h : (pstep a pc).2 = true) :
    a = true := by
  cases a
  · rw [pstep_false] at h; exact absurd h (by simp)
  · rfl

theorem pstep_fst_le (a : Bool) (pc : Nat) : (pstep a pc).1 ≤ LATCHING_TIME := by
  unfold pstep
  split
  · next h =>
      have : pc < LATCHING_TIME := by
        have := h
        simp at this
        exact this.2
      omega
  · exact Nat.zero_le _

theorem pstep_iff (a : Bool) (pc : Nat) :
    (pstep a pc).2 = true ↔ (pstep a pc).1 ≠ 0 := by
  unfold pstep
  split
  · next h => simp at h ⊢; exact h.1
  · simp

theorem hstep_eq (ts : Bool) (n : Nat) (h : n ≠ MOMENTARY_DELAY) :
    hstep ts n = (ts, n + 1) := by
  simp [hstep, h]

theorem hstep_wrap (ts : Bool) :
    hstep ts MOMENTARY_DELAY = (true, 0) := by
  simp [hstep]

theorem hstep_fst_true (n : Nat) : (hstep true n).1 = true := by
  unfold hstep; split <;> rfl

/-- every pressed tick leaves the debounced sample set. -/
theorem tick_true_ss (s : St) : (tick true s).ss = true := by
  obtain ⟨sp0, ss0, ls0, po0, ts0, bc0, up0, pc0, n0⟩ := s
  cases ss0 <;> cases po0 <;> simp [tick]

/-- at the end of every tick, the SP bit is set iff the pulse counter is
nonzero (the renderer keys the latching pin on the counter). -/
theorem tick_sp_iff_pc (b : Bool) (s : St) :
    (tick b s).sp = true ↔ (tick b s).pulse_counter ≠ 0 := by
  obtain ⟨sp0, ss0, ls0, po0, ts0, bc0, up0, pc0, n0⟩ := s
  cases b <;> cases ss0 <;> cases po0 <;> simp [tick] <;> exact pstep_iff _ _

theorem pstep_true_spec (pc : Nat) :
    (pstep true pc).2 = decide (pc < LATCHING_TIME) ∧
    (pstep true pc).1 = (if pc < LATCHING_TIME then pc + 1 else 0) := by
  by_cases h : pc < LATCHING_TIME
  · simp [pstep_true_lt _ h, h]
  · simp [pstep_true_ge _ h, h]

/-- the FSM never clears SP: once the pulse is in flight, any tick advances
the counter and expires the pulse at `LATCHING_TIME`, whatever the input. -/
theorem tick_inflight (b : Bool) (s : St) (h : s.sp = true) :
    (tick b s).sp = decide (s.pulse_counter < LATCHING_TIME) ∧
    (tick b s).pulse_counter =
      (if s.pulse_counter < LATCHING_TIME then s.pulse_counter + 1 else 0) := by
  cases b
  · rw [tick_release s]
    simp only [h, Bool.true_or]
    exact pstep_true_spec _
  · cases hss : s.ss
    · cases hpo : s.po
      · rw [tick_press_off s hss hpo]
        exact pstep_true_spec _
      · rw [tick_press_on s hss hpo]
        exact pstep_true_spec _
    · rw [tick_held s hss]
      simp only [h]
      exact pstep_true_spec _

theorem pstep_snd_true_fst (a : Bool) (pc : Nat) (h : (pstep a pc).2 = true) :
    (pstep a pc).1 = pc + 1 := by
  unfold pstep at h ⊢
  split at h
  · next hc => simp [hc]
  · exact absurd h (by simp)

theorem pstep_snd_false_fst (a : Bool) (pc : Nat) (h : (pstep a pc).2 = false) :
    (pstep a pc).1 = 0 := by
  unfold pstep at h ⊢
  split at h
  · next hc =>
      simp at hc
      rw [hc.1] at h
      exact absurd h (by simp)
  · next hc => simp [hc]

/-- the net effect of any tick on the pulse machine: the counter stays
within `LATCHING_TIME`, it is the old counter plus one when SP survives the
tick, and it is zero when SP is clear at the end of the tick. -/
theorem tick_pulse_out (b : Bool) (s : St) :
    (tick b s).pulse_counter ≤ LATCHING_TIME ∧
    ((tick b s).sp = true → (tick b s).pulse_counter = s.pulse_counter + 1) ∧
    ((tick b s).sp = false → (tick b s).pulse_counter = 0) := by
  cases b
  · rw [tick_release s]
    exact ⟨pstep_fst_le _ _, pstep_snd_true_fst _ _, pstep_snd_false_fst _ _⟩
  · cases hss : s.ss
    · cases hpo : s.po
      · rw [tick_press_off s hss hpo]
        exact ⟨pstep_fst_le _ _, pstep_snd_true_fst _ _, pstep_snd_false_fst _ _⟩
      · rw [tick_press_on s hss hpo]
        exact ⟨pstep_fst_le _ _, pstep_snd_true_fst _ _, pstep_snd_false_fst _ _⟩
    · rw [tick_held s hss]
      exact ⟨pstep_fst_le _ _, pstep_snd_true_fst _ _, pstep_snd_false_fst _ _⟩

/-! Machinery for runs that keep the switch pressed. -/

theorem holdRun_succ (s : St) (j : Nat) :
    holdRun s (j + 1) = tick true (holdRun s j) := rfl

theorem holdRun_ss (s : St) (j : Nat) (h : 1 ≤ j) : (holdRun s j).ss = true := by
  cases j with
  | zero => omega
  | succ n => exact tick_true_ss _

/-- hold invariant after a press edge with the pedal off: through the first
`MOMENTARY_DELAY` ticks of the hold, the pedal stays on, TS stays clear and
`intr_count` counts the hold ticks. -/
theorem holdRun_inv (s : St) (hss : s.ss = false) (hpo : s.po = false) :
    ∀ m, m ≤ MOMENTARY_DELAY →
      (holdRun s (1 + m)).ss = true ∧ (holdRun s (1 + m)).po = true ∧
      (holdRun s (1 + m)).ts = false ∧ (holdRun s (1 + m)).intr_count = m := by
  intro m
  induction m with
  | zero =>
    intro _
    have h1 : holdRun s 1 = tick true s := rfl
    rw [h1, tick_press_off s hss hpo]
    exact ⟨rfl, rfl, rfl, rfl⟩
  | succ n ih =>
    intro hle
    obtain ⟨h1, h2, h3, h4⟩ := ih (by omega)
    have e : holdRun s (1 + (n + 1)) = tick true (holdRun s (1 + n)) := rfl
    rw [e, tick_held _ h1]
    simp [h2, h3, h4, hstep_eq false n (by omega)]

/-- TS fires at hold tick `MOMENTARY_DELAY + 1`, the press edge being hold
tick 0. -/
theorem holdRun_ts_fires (s : St) (hss : s.ss = false) (hpo : s.po = false) :
    (holdRun s (MOMENTARY_DELAY + 2)).ss = true ∧
    (holdRun s (MOMENTARY_DELAY + 2)).po = true ∧
    (holdRun s (MOMENTARY_DELAY + 2)).ts = true := by
  obtain ⟨h1, h2, h3, h4⟩ := holdRun_inv s hss hpo MOMENTARY_DELAY le_rfl
  have e : holdRun s (MOMENTARY_DELAY + 2) =
      tick true (holdRun s (1 + MOMENTARY_DELAY)) := by
    have h5 : MOMENTARY_DELAY + 2 = (1 + MOMENTARY_DELAY) + 1 := by omega
    rw [h5, holdRun_succ]
  rw [e, tick_held _ h1]
  simp [h2, h3, h4, hstep_wrap]

/-- a pressed tick keeps TS set and does not touch the pedal bit. -/
theorem tick_true_persist (x : St) (h1 : x.ss = true) (h2 : x.ts = true) :
    (tick true x).ss = true ∧ (tick true x).po = x.po ∧ (tick true x).ts = true := by
  rw [tick_held _ h1]
  simp [h2, hstep_fst_true]

/-- once TS has fired, every further hold tick keeps switch, pedal and TS
all set. -/
theorem holdRun_after (s : St) (hss : s.ss = false) (hpo : s.po = false) :
    ∀ j, MOMENTARY_DELAY + 2 ≤ j →
      (holdRun s j).ss = true ∧ (holdRun s j).po = true ∧
      (holdRun s j).ts = true := by
  intro j hj
  induction j, hj using Nat.le_induction with
  | base => exact holdRun_ts_fires s hss hpo
  | succ n hn ih =>
    obtain ⟨h1, h2, h3⟩ := ih
    obtain ⟨g1, g2, g3⟩ := tick_true_persist _ h1 h3
    rw [holdRun_succ]
    exact ⟨g1, by rw [g2, h2], g3⟩

/-- pulse-counter invariant on a hold: the counter is bounded, and while SP
survives, tick `j` has counter at least `j`, so SP cannot outlive tick
`LATCHING_TIME`. -/
theorem holdRun_pulse_inv (s : St) :
    ∀ j, 1 ≤ j →
      (holdRun s j).pulse_counter ≤ LATCHING_TIME ∧
      ((holdRun s j).sp = true → j ≤ (holdRun s j).pulse_counter) ∧
      ((holdRun s j).sp = false → (holdRun s j).pulse_counter = 0) := by
  intro j hj
  induction j, hj using Nat.le_induction with
  | base =>
    have e : holdRun s 1 = tick true s := rfl
    rw [e]
    obtain ⟨a1, a2, a3⟩ := tick_pulse_out true s
    exact ⟨a1, fun h => by rw [a2 h]; omega, a3⟩
  | succ n hn ih =>
    obtain ⟨a1, a2, a3⟩ := ih
    obtain ⟨b1, b2, b3⟩ := tick_pulse_out true (holdRun s n)
    rw [holdRun_succ]
    refine ⟨b1, fun h => ?_, b3⟩
    have hss : (holdRun s n).ss = true := holdRun_ss s n hn
    have hsp : (holdRun s n).sp = true := by
      rw [tick_held _ hss] at h
      exact pstep_snd_imp _ _ h
    have h6 := a2 hsp
    rw [b2 h]
    omega

/-- on a hold, the pulse is over from tick `LATCHING_TIME + 1` on: SP is
clear and the pulse counter is zero, whatever the starting state. -/
theorem holdRun_pulse_dead (s : St) :
    ∀ j, LATCHING_TIME + 1 ≤ j →
      (holdRun s j).sp = false ∧ (holdRun s j).pulse_counter = 0 := by
  intro j hj
  obtain ⟨a1, a2, a3⟩ := holdRun_pulse_inv s j (by omega)
  cases hsp : (holdRun s j).sp
  · exact ⟨rfl, a3 hsp⟩
  · exfalso
    have := a2 hsp
    omega

theorem run_succ (u : Nat → Bool) (s : St) (j : Nat) :
    run u s (j + 1) = tick (u j) (run u s j) := rfl

/-- release tick while pedal is on with TS set (momentary release): the
pedal turns off and SP is armed, surviving the pulse step when the counter
is below `LATCHING_TIME`. -/
theorem tick_release_fire (x : St) (h1 : x.ss = true) (h2 : x.po = true)
    (h3 : x.ts = true) (h4 : x.pulse_counter < LATCHING_TIME) :
    (tick false x).po = false ∧ (tick false x).sp = true := by
  rw [tick_release x]
  simp [h1, h2, h3, hstep_fst_true, pstep_true_lt _ h4]

/-- release tick with the pedal off: the pedal stays off and SP is not
newly armed. -/
theorem tick_release_noop_po (x : St) (h : x.po = false) :
    (tick false x).po = false ∧ ((tick false x).sp = true → x.sp = true) := by
  rw [tick_release x]
  refine ⟨by simp [h], fun hs => ?_⟩
  simp only [h, Bool.and_false, Bool.false_and, Bool.or_false] at hs
  exact pstep_snd_imp _ _ hs

/-- release tick with TS clear and no wrap on this tick: the pedal is
untouched and SP is not newly armed. -/
theorem tick_release_noop_ts (x : St) (h3 : x.ts = false)
    (h4 : x.intr_count ≠ MOMENTARY_DELAY) :
    (tick false x).po = x.po ∧ ((tick false x).sp = true → x.sp = true) := by
  rw [tick_release x]
  have hg : (hstep x.ts x.intr_count).1 = false := by
    rw [hstep_eq _ _ h4, h3]
  refine ⟨by simp [hg], fun hs => ?_⟩
  simp only [hg, Bool.and_false, Bool.or_false] at hs
  exact pstep_snd_imp _ _ hs

/-- released tick with the previous debounced sample already released (not
a falling edge): the pedal is untouched and SP is not newly armed. -/
theorem tick_release_noedge (x : St) (h : x.ss = false) :
    (tick false x).po = x.po ∧ ((tick false x).sp = true → x.sp = true) := by
  rw [tick_release x]
  refine ⟨by simp [h], fun hs => ?_⟩
  simp only [h, Bool.false_and, Bool.or_false] at hs
  exact pstep_snd_imp _ _ hs

/-- pressed tick that is not an edge: the pedal is untouched and SP is not
newly armed. -/
theorem tick_held_noarm (x : St) (h : x.ss = true) :
    (tick true x).po = x.po ∧ ((tick true x).sp = true → x.sp = true) := by
  rw [tick_held _ h]
  exact ⟨rfl, fun hs => pstep_snd_imp _ _ hs⟩

/-- an arming tick whose entry pulse counter is below `LATCHING_TIME` ends
with SP set and the counter incremented. -/
theorem tick_arm (b : Bool) (s : St) (h : armCond b s)
    (h2 : s.pulse_counter < LATCHING_TIME) :
    (tick b s).sp = true ∧ (tick b s).pulse_counter = s.pulse_counter + 1 := by
  rcases h with ⟨hb, hss⟩ | ⟨hb, hss, hpo, hts⟩
  · subst hb
    cases hpo : s.po
    · rw [tick_press_off s hss hpo]
      simp [pstep_true_lt _ h2]
    · rw [tick_press_on s hss hpo]
      simp [pstep_true_lt _ h2]
  · subst hb
    rw [tick_release s]
    simp [hss, hpo, hts, pstep_true_lt _ h2]

/-- without an arming event, SP can only persist, never appear. -/
theorem tick_noarm_sp (b : Bool) (s : St) (h : ¬ armCond b s) :
    (tick b s).sp = true → s.sp = true := by
  cases b
  · rw [tick_release s]
    intro hs
    rcases hg : (s.ss && s.po && (hstep s.ts s.intr_count).1) with _ | _
    · rw [hg] at hs
      simp only [Bool.or_false] at hs
      exact pstep_snd_imp _ _ hs
    · exfalso
      apply h
      right
      simp only [Bool.and_eq_true] at hg
      exact ⟨rfl, hg.1.1, hg.1.2, hg.2⟩
  · cases hss : s.ss
    · exact absurd (Or.inl ⟨rfl, hss⟩) h
    · rw [tick_held _ hss]
      exact fun hs => pstep_snd_imp _ _ hs

/-- C3: for every tick at which `pulse_pending` is armed from a finished
pulse (SP clear, counter zero), with no re-arm during the window, SP stays
true for exactly `LATCHING_TIME` consecutive ticks and then auto-clears,
independently of the inputs (hence of `pedal_on`) during that window. -/
theorem c3_pulse_width (s : St) (u : Nat → Bool)
    (hsp : s.sp = false) (hpc : s.pulse_counter = 0)
    (harm : armCond (u 0) s)
    (hfree : ∀ j, 1 ≤ j → j < LATCHING_TIME → ¬ armCond (u j) (run u s j)) :
    (∀ j, 1 ≤ j → j ≤ LATCHING_TIME → (run u s j).sp = true) ∧
    (run u s (LATCHING_TIME + 1)).sp = false := by
  have lt_pos : 0 < LATCHING_TIME := by decide
  have key : ∀ j, 1 ≤ j → j ≤ LATCHING_TIME →
      (run u s j).sp = true ∧ (run u s j).pulse_counter = j := by
    intro j
    induction j with
    | zero => intro h; omega
    | succ n ih =>
      intro _ hle
      cases Nat.eq_zero_or_pos n with
      | inl h0 =>
        subst h0
        have e : run u s 1 = tick (u 0) s := rfl
        rw [e]
        have harm2 := tick_arm (u 0) s harm (by rw [hpc]; exact lt_pos)
        rw [hpc] at harm2
        exact harm2
      | inr hpos =>
        obtain ⟨ih1, ih2⟩ := ih (by omega) (by omega)
        rw [run_succ]
        obtain ⟨t1, t2⟩ := tick_inflight (u n) _ ih1
        rw [ih2] at t1 t2
        have hlt : n < LATCHING_TIME := by omega
        rw [t1, t2]
        simp [hlt]
  refine ⟨fun j hj1 hj2 => (key j hj1 hj2).1, ?_⟩
  obtain ⟨k1, k2⟩ := key LATCHING_TIME (by omega) le_rfl
  rw [run_succ]
  obtain ⟨t1, t2⟩ := tick_inflight _ _ k1
  rw [k2] at t1
  rw [t1]
  simp

/-- witness for C3: a press from startup arms a pulse that lasts ticks 1
to `LATCHING_TIME` and is clear at tick `LATCHING_TIME + 1`. -/
theorem c3_pulse_width_witness :
    (run (fun _ => true) sInit LATCHING_TIME).sp = true ∧
    (run (fun _ => true) sInit (LATCHING_TIME + 1)).sp = false := by
  have h := c3_pulse_width sInit (fun _ => true) (by decide) (by decide)
    (Or.inl ⟨rfl, rfl⟩)
    (fun j h1 h2 => by
      have h2' : j < 3 := h2
      interval_cases j <;> decide)
  exact ⟨h.1 LATCHING_TIME (by decide) le_rfl, h.2⟩

/-- C9: once a pulse is in flight (SP set, counter between 1 and
`LATCHING_TIME`), any further ticks — re-arming ones included — advance
the counter from its current value and clear SP exactly when the counter
reaches `LATCHING_TIME` counted from the original arm: the window is never
restarted or extended. -/
theorem c9_no_pulse_restart (s : St) (u : Nat → Bool) (h1 : s.sp = true)
    (h2 : 1 ≤ s.pulse_counter) (h3 : s.pulse_counter ≤ LATCHING_TIME) :
    ∀ j, j ≤ LATCHING_TIME + 1 - s.pulse_counter →
      (run u s j).sp = decide (s.pulse_counter + j ≤ LATCHING_TIME) ∧
      (run u s j).pulse_counter =
        (if s.pulse_counter + j ≤ LATCHING_TIME then s.pulse_counter + j else 0) := by
  intro j
  induction j with
  | zero =>
    intro _
    constructor
    · show s.sp = _
      rw [h1]
      exact (decide_eq_true (by omega : s.pulse_counter + 0 ≤ LATCHING_TIME)).symm
    · show s.pulse_counter = _
      rw [if_pos (by omega : s.pulse_counter + 0 ≤ LATCHING_TIME)]
      omega
  | succ n ih =>
    intro hle
    obtain ⟨ih1, ih2⟩ := ih (by omega)
    have hwin : s.pulse_counter + n ≤ LATCHING_TIME := by omega
    have hsp_n : (run u s n).sp = true := by
      rw [ih1]
      exact decide_eq_true hwin
    have hpc_n : (run u s n).pulse_counter = s.pulse_counter + n := by
      rw [ih2, if_pos hwin]
    rw [run_succ]
    obtain ⟨t1, t2⟩ := tick_inflight (u n) _ hsp_n
    rw [hpc_n] at t1 t2
    constructor
    · rw [t1]
      by_cases hq : s.pulse_counter + n < LATCHING_TIME
      · have h5 : s.pulse_counter + (n + 1) ≤ LATCHING_TIME := by omega
        simp [hq, h5]
      · have h5 : ¬ (s.pulse_counter + (n + 1) ≤ LATCHING_TIME) := by omega
        simp [hq, h5]
    · rw [t2]
      by_cases hq : s.pulse_counter + n < LATCHING_TIME
      · have h5 : s.pulse_counter + (n + 1) ≤ LATCHING_TIME := by omega
        rw [if_pos hq, if_pos h5]
        omega
      · have h5 : ¬ (s.pulse_counter + (n + 1) ≤ LATCHING_TIME) := by omega
        rw [if_neg hq, if_neg h5]

/-- witness for C9: with the pulse one tick old, even under constant
re-pressing the pulse ends after `LATCHING_TIME - 1` more ticks. -/
theorem c9_no_pulse_restart_witness :
    (run (fun _ => true)
        { sp := true, ss := false, ls := false, po := false, ts := false,
          brightness_control := 0, brighness_up := true,
          pulse_counter := 1, intr_count := 0 } LATCHING_TIME).sp =
      decide (1 + LATCHING_TIME ≤ LATCHING_TIME) := by
  exact (c9_no_pulse_restart _ (fun _ => true) rfl (by decide) (by decide)
    LATCHING_TIME (by decide)).1

/-- two input streams agreeing on the first `n` ticks yield the same state
after `n` ticks. -/
theorem run_congr (u v : Nat → Bool) (s : St) :
    ∀ n, (∀ i, i < n → u i = v i) → run u s n = run v s n := by
  intro n
  induction n with
  | zero => intro _; rfl
  | succ m ih =>
    intro h
    rw [run_succ, run_succ, ih (fun i hi => h i (by omega)), h m (by omega)]

/-- a press edge while the pedal is on toggles the pedal off, and holding
keeps it off. -/
theorem holdRun_press_on (s : St) (hss : s.ss = false) (hpo : s.po = true) :
    ∀ j, 1 ≤ j → (holdRun s j).po = false ∧ (holdRun s j).ss = true := by
  intro j hj
  induction j, hj using Nat.le_induction with
  | base =>
    have e : holdRun s 1 = tick true s := rfl
    rw [e, tick_press_on s hss hpo]
    exact ⟨rfl, rfl⟩
  | succ n hn ih =>
    obtain ⟨h1, h2⟩ := ih
    rw [holdRun_succ, tick_held _ h2]
    exact ⟨h1, rfl⟩

/-- C5: during one continuous press from an idle state (`2×MOMENTARY_DELAY`
ticks and beyond), TS transitions from false to true exactly once: it is
false through hold tick `MOMENTARY_DELAY` and true from hold tick
`MOMENTARY_DELAY + 1` on, for as long as the switch stays pressed (the
press edge is hold tick 0, i.e. run index 1). -/
theorem c5_single_threshold (s : St) (hss : s.ss = false) (hpo : s.po = false) :
    (∀ j, 1 ≤ j → j ≤ MOMENTARY_DELAY + 1 → (holdRun s j).ts = false) ∧
    (∀ j, MOMENTARY_DELAY + 2 ≤ j → (holdRun s j).ts = true) := by
  constructor
  · intro j h1 h2
    obtain ⟨_, _, h3, _⟩ := holdRun_inv s hss hpo (j - 1) (by omega)
    have e : 1 + (j - 1) = j := by omega
    rw [e] at h3
    exact h3
  · intro j h1
    exact (holdRun_after s hss hpo j h1).2.2

/-- witness for C5: from startup, TS is still false at run index
`MOMENTARY_DELAY + 1` and true at run index `MOMENTARY_DELAY + 2`. -/
theorem c5_single_threshold_witness :
    (holdRun sInit (MOMENTARY_DELAY + 1)).ts = false ∧
    (holdRun sInit (MOMENTARY_DELAY + 2)).ts = true := by
  have h := c5_single_threshold sInit rfl rfl
  exact ⟨h.1 (MOMENTARY_DELAY + 1) (by omega) le_rfl, h.2 (MOMENTARY_DELAY + 2) le_rfl⟩

/-- counterexample for C2: the claim places the TS transition at hold tick
`MOMENTARY_DELAY` (run index `MOMENTARY_DELAY + 1`, the press tick being
hold tick 0), but there TS is still false; it first becomes true one tick
later. -/
theorem c2_hold_momentary_cex :
    (holdRun sInit (MOMENTARY_DELAY + 1)).ts = false ∧
    (holdRun sInit (MOMENTARY_DELAY + 2)).ts = true := by
  constructor
  · obtain ⟨_, _, h3, _⟩ := holdRun_inv sInit rfl rfl MOMENTARY_DELAY le_rfl
    have e : 1 + MOMENTARY_DELAY = MOMENTARY_DELAY + 1 := by omega
    rw [e] at h3
    exact h3
  · exact (holdRun_ts_fires sInit rfl rfl).2.2

/-- C2 (amended): from an idle state, a press-and-hold sets the pedal on at
the press edge and sets TS at hold tick `MOMENTARY_DELAY + 1` — one tick
later than the claim's `MOMENTARY_DELAY` — and the first release tick after
TS has fired turns the pedal off and arms a pulse on that same tick. -/
theorem c2_hold_momentary (s : St) (hss : s.ss = false) (hpo : s.po = false) :
    (holdRun s 1).po = true ∧
    (∀ j, 1 ≤ j → j ≤ MOMENTARY_DELAY + 1 → (holdRun s j).ts = false) ∧
    (holdRun s (MOMENTARY_DELAY + 2)).ts = true ∧
    (∀ k, MOMENTARY_DELAY + 2 ≤ k →
      (tick false (holdRun s k)).po = false ∧ (tick false (holdRun s k)).sp = true) := by
  refine ⟨?_, ?_, ?_, ?_⟩
  · have e : holdRun s 1 = tick true s := rfl
    rw [e, tick_press_off s hss hpo]
  · intro j h1 h2
    obtain ⟨_, _, h3, _⟩ := holdRun_inv s hss hpo (j - 1) (by omega)
    have e : 1 + (j - 1) = j := by omega
    rw [e] at h3
    exact h3
  · exact (holdRun_ts_fires s hss hpo).2.2
  · intro k hk
    obtain ⟨g1, g2, g3⟩ := holdRun_after s hss hpo k hk
    have hnum : LATCHING_TIME + 1 ≤ MOMENTARY_DELAY + 2 := by decide
    obtain ⟨d1, d2⟩ := holdRun_pulse_dead s k (by omega)
    exact tick_release_fire _ g1 g2 g3 (by rw [d2]; decide)

/-- witness for C2 (amended): the concrete run from startup. -/
theorem c2_hold_momentary_witness :
    (holdRun sInit 1).po = true ∧
    (holdRun sInit (MOMENTARY_DELAY + 2)).ts = true ∧
    (tick false (holdRun sInit (MOMENTARY_DELAY + 2))).po = false ∧
    (tick false (holdRun sInit (MOMENTARY_DELAY + 2))).sp = true := by
  have h := c2_hold_momentary sInit rfl rfl
  exact ⟨h.1, h.2.2.1, (h.2.2.2 _ le_rfl).1, (h.2.2.2 _ le_rfl).2⟩

/-- counterexample for C1: reachable state with the debounced sample
released in which a press tick does not arm a pulse.  Press at tick 1,
release during ticks 2 and 3: the pulse armed by the first press is then at
its final tick (`pulse_counter = LATCHING_TIME`), and a second press on
tick 4 flips the pedal but its arm is killed on the same tick — SP and the
counter both end at zero, so no pulse is emitted for this toggle. -/
theorem c1_tap_toggle_cex :
    (run (fun i => decide (i = 0)) sInit 3).ss = false ∧
    (run (fun i => decide (i = 0)) sInit 3).po = true ∧
    (run (fun i => decide (i = 0)) sInit 3).pulse_counter = LATCHING_TIME ∧
    (tick true (run (fun i => decide (i = 0)) sInit 3)).po = false ∧
    (tick true (run (fun i => decide (i = 0)) sInit 3)).sp = false ∧
    (tick true (run (fun i => decide (i = 0)) sInit 3)).pulse_counter = 0 := by
  decide

/-- C1 (amended): for every state whose debounced sample was released and
whose pulse counter is below `LATCHING_TIME`, a press tick flips the pedal
and arms a pulse; holding for `k < MOMENTARY_DELAY` ticks and then
releasing leaves the pedal at its flipped value through the release tick,
and no tick after the press tick arms a new pulse. -/
theorem c1_tap_toggle (s : St) (k : Nat) (hss : s.ss = false)
    (hpc : s.pulse_counter < LATCHING_TIME)
    (hk1 : 1 ≤ k) (hk : k < MOMENTARY_DELAY) :
    (run (fun i => decide (i < k)) s 1).po = !s.po ∧
    (run (fun i => decide (i < k)) s 1).sp = true ∧
    (∀ j, 1 ≤ j → j ≤ k + 1 → (run (fun i => decide (i < k)) s j).po = !s.po) ∧
    (∀ j, 1 ≤ j → j ≤ k →
      ((run (fun i => decide (i < k)) s (j + 1)).sp = true →
        (run (fun i => decide (i < k)) s j).sp = true)) := by
  have hu : ∀ j, j ≤ k → run (fun i => decide (i < k)) s j = holdRun s j := by
    intro j hj
    exact run_congr _ _ s j (fun i hi => decide_eq_true (by omega))
  have huk : decide (k < k) = false := decide_eq_false (lt_irrefl k)
  have hrel : run (fun i => decide (i < k)) s (k + 1) = tick false (holdRun s k) := by
    rw [run_succ, hu k le_rfl]
    rw [huk]
  have hpress : run (fun i => decide (i < k)) s 1 = tick true s := by
    rw [hu 1 hk1]
    rfl
  have hpo_hold : ∀ j, 1 ≤ j → j ≤ k → (holdRun s j).po = !s.po := by
    intro j h1 h2
    cases hpo : s.po
    · obtain ⟨_, g2, _, _⟩ := holdRun_inv s hss hpo (j - 1) (by omega)
      have e : 1 + (j - 1) = j := by omega
      rw [e] at g2
      rw [g2]
      rfl
    · rw [(holdRun_press_on s hss hpo j h1).1]
      rfl
  have hrelease : (tick false (holdRun s k)).po = !s.po ∧
      ((tick false (holdRun s k)).sp = true → (holdRun s k).sp = true) := by
    cases hpo : s.po
    · obtain ⟨_, g2, g3, g4⟩ := holdRun_inv s hss hpo (k - 1) (by omega)
      have e : 1 + (k - 1) = k := by omega
      rw [e] at g2 g3 g4
      obtain ⟨r1, r2⟩ := tick_release_noop_ts (holdRun s k) g3 (by omega)
      rw [r1, g2]
      exact ⟨rfl, r2⟩
    · have g1 := (holdRun_press_on s hss hpo k hk1).1
      obtain ⟨r1, r2⟩ := tick_release_noop_po (holdRun s k) g1
      rw [r1]
      exact ⟨rfl, r2⟩
  refine ⟨?_, ?_, ?_, ?_⟩
  · rw [hpress]
    cases hpo : s.po
    · rw [tick_press_off s hss hpo]
      rfl
    · rw [tick_press_on s hss hpo]
      rfl
  · rw [hpress]
    cases hpo : s.po
    · rw [tick_press_off s hss hpo]
      simp [pstep_true_lt _ hpc]
    · rw [tick_press_on s hss hpo]
      simp [pstep_true_lt _ hpc]
  · intro j h1 h2
    rcases Nat.lt_or_ge j (k + 1) with hj | hj
    · rw [hu j (by omega)]
      exact hpo_hold j h1 (by omega)
    · have e : j = k + 1 := by omega
      rw [e, hrel]
      exact hrelease.1
  · intro j h1 h2
    rcases Nat.lt_or_ge (j + 1) (k + 1) with hj | hj
    · rw [hu (j + 1) (by omega), hu j (by omega), holdRun_succ]
      exact (tick_held_noarm _ (holdRun_ss s j h1)).2
    · have e : j = k := by omega
      subst e
      rw [hrel, hu j le_rfl]
      exact hrelease.2

/-- witness for C1 (amended): a one-tick tap from startup, pedal still on
after the release tick. -/
theorem c1_tap_toggle_witness :
    (run (fun i => decide (i < 1)) sInit 1).po = !sInit.po ∧
    (run (fun i => decide (i < 1)) sInit 1).sp = true ∧
    (run (fun i => decide (i < 1)) sInit 2).po = !sInit.po := by
  have h := c1_tap_toggle sInit 1 rfl (by decide) le_rfl (by decide)
  exact ⟨h.1, h.2.1, h.2.2.1 2 (by omega) le_rfl⟩

/-- every tick advances the brightness pair by one `bstep`, on a value
first reset to 0 exactly when the tick is a rising press edge with the
pedal off. -/
theorem tick_bc (b : Bool) (s : St) :
    ((tick b s).brightness_control, (tick b s).brighness_up) =
      bstep (if b = true ∧ s.ss = false ∧ s.po = false then 0
             else s.brightness_control) s.brighness_up := by
  cases b
  · rw [tick_release s]
    simp
  · cases hss : s.ss
    · cases hpo : s.po
      · rw [tick_press_off s hss hpo]
        simp [hss, hpo]
      · rw [tick_press_on s hss hpo]
        simp [hss, hpo]
    · rw [tick_held s hss]
      simp [hss]

/-- counterexample for C4: a tick with the switch not pressed does not
reset the hold counter — from startup it counts 0 → 1 on a released tick. -/
theorem c4_hold_counter_cex :
    (tick false sInit).intr_count = 1 ∧ (tick false sInit).intr_count ≠ 0 := by
  decide

/-- C4 (amended): the hold counter increments on every tick, pressed or
not; it resets to 0 only on a rising press edge with the pedal off, or on
reaching `MOMENTARY_DELAY`, at which moment TS is set (and TS is otherwise
left alone except for the press-edge clear). -/
theorem c4_hold_counter (s : St) (b : Bool) :
    (tick b s).intr_count =
      (if b = true ∧ s.ss = false ∧ s.po = false then 0
       else if s.intr_count = MOMENTARY_DELAY then 0 else s.intr_count + 1) ∧
    (tick b s).ts =
      (if b = true ∧ s.ss = false ∧ s.po = false then false
       else if s.intr_count = MOMENTARY_DELAY then true else s.ts) := by
  cases b
  · rw [tick_release s]
    simp [hstep, apply_ite]
  · cases hss : s.ss
    · cases hpo : s.po
      · rw [tick_press_off s hss hpo]
        simp [hss, hpo]
      · rw [tick_press_on s hss hpo]
        simp [hss, hpo, hstep, apply_ite]
    · rw [tick_held s hss]
      simp [hss, hstep, apply_ite]

/-- counterexample for C7: two states agreeing on
`(brightness_control, brighness_up)` but differing in the switch sample;
a pressed tick takes them to different brightness values, because the
toggle-on edge resets the shimmer to 0 (main.c line 83). -/
theorem c7_shimmer_cex :
    s7a.brightness_control = s7b.brightness_control ∧
    s7a.brighness_up = s7b.brighness_up ∧
    s7a.ss ≠ s7b.ss ∧
    (tick true s7a).brightness_control ≠ (tick true s7b).brightness_control := by
  decide

/-- C7 (amended): the brightness state advances by the same triangle-wave
step on every tick, except that a rising press edge with the pedal off
first resets the brightness to 0 (restarting the ramp), so the shimmer
phase does jump on a toggle-on edge. -/
theorem c7_shimmer_step (s : St) (b : Bool) :
    ((tick b s).brightness_control, (tick b s).brighness_up) =
      bstep (if b = true ∧ s.ss = false ∧ s.po = false then 0
             else s.brightness_control) s.brighness_up := by
  exact tick_bc b s

/-- counterexample for C10: on tick 4 of a continuous hold — not an edge
tick, the raw sample equals the debounced sample — `pulse_pending` still
changes, from true to false, as the pulse expires. -/
theorem c10_no_edge_cex :
    (run (fun _ => true) sInit 3).ss = true ∧
    (run (fun _ => true) sInit 3).sp = true ∧
    (tick true (run (fun _ => true) sInit 3)).sp = false := by
  decide

/-- C10 (amended): on a tick whose raw sample equals the previous
debounced sample, the handler leaves `pedal_on` unchanged and never arms
`pulse_pending`; `pulse_pending` can still fall on such a tick, when the
running pulse expires. -/
theorem c10_no_edge (s : St) (b : Bool) (h : b = s.ss) :
    (tick b s).po = s.po ∧ ((tick b s).sp = true → s.sp = true) := by
  cases hss : s.ss
  · rw [hss] at h
    subst h
    exact tick_release_noedge s hss
  · rw [hss] at h
    subst h
    exact tick_held_noarm s hss

/-- witness for C10 (amended): a released tick from startup. -/
theorem c10_no_edge_witness :
    (tick false sInit).po = sInit.po ∧
    ((tick false sInit).sp = true → sInit.sp = true) :=
  c10_no_edge sInit false rfl

/-- the renderer, on states satisfying the SP/pulse-counter coupling
(which holds at the end of every tick). -/
theorem render_spec (s : St) (hinv : s.sp = true ↔ s.pulse_counter ≠ 0) :
    (render s).relay_active_high = s.po ∧
    (render s).static_led = s.po ∧
    (render s).relay_active_low = !s.po ∧
    (render s).ocr0a =
      (if s.po = true then
        (if s.ss = true then s.brightness_control else 255) else 0) ∧
    (render s).latching_relay = s.sp := by
  obtain ⟨sp0, ss0, ls0, po0, ts0, bc0, up0, pc0, n0⟩ := s
  simp only at hinv
  cases po0 <;> cases sp0 <;> simp_all [render]

/-- the SP/pulse-counter coupling holds at every reachable state. -/
theorem run_sp_iff_pc (u : Nat → Bool) (n : Nat) :
    (run u sInit n).sp = true ↔ (run u sInit n).pulse_counter ≠ 0 := by
  cases n with
  | zero =>
    show sInit.sp = true ↔ sInit.pulse_counter ≠ 0
    decide
  | succ m => exact tick_sp_iff_pc (u m) (run u sInit m)

/-- C8: on every renderer iteration over a reachable state, the outputs
are: pedal on drives the active-high relay and static LED on, the
active-low relay pin low, and the LED brightness is the live shimmer value
while the switch is pressed and maximum (255) otherwise; pedal off drives
them off/off/high with brightness 0; and the latching pin is high exactly
while `pulse_pending` is set. -/
theorem c8_render (u : Nat → Bool) (n : Nat) :
    (render (run u sInit n)).relay_active_high = (run u sInit n).po ∧
    (render (run u sInit n)).static_led = (run u sInit n).po ∧
    (render (run u sInit n)).relay_active_low = !(run u sInit n).po ∧
    (render (run u sInit n)).ocr0a =
      (if (run u sInit n).po = true then
        (if (run u sInit n).ss = true then (run u sInit n).brightness_control
         else 255) else 0) ∧
    (render (run u sInit n)).latching_relay = (run u sInit n).sp :=
  render_spec _ (run_sp_iff_pc u n)

theorem bstep_true (bc : Nat) :
    bstep bc true = (if bc < 254 then (bc + 1, true) else (bc, false)) := rfl

theorem bstep_false (bc : Nat) :
    bstep bc false = (if bc > 10 then (bc - 1, false) else (bc, true)) := rfl

theorem bstep_le (bc : Nat) (up : Bool) (h : bc ≤ 254) :
    (bstep bc up).1 ≤ 254 := by
  cases up
  · rw [bstep_false]
    split
    · next h1 =>
        show bc - 1 ≤ 254
        omega
    · next h1 =>
        show bc ≤ 254
        omega
  · rw [bstep_true]
    split
    · next h1 =>
        show bc + 1 ≤ 254
        omega
    · next h1 =>
        show bc ≤ 254
        omega

theorem bstep_inRange (p : Nat × Bool) (h : inRange p) :
    inRange (bstep p.1 p.2) := by
  obtain ⟨c, u⟩ := p
  obtain ⟨h1, h2⟩ := h
  cases u
  · rw [bstep_false]
    split
    · next h3 => exact ⟨by omega, by omega⟩
    · next h3 => exact ⟨h1, h2⟩
  · rw [bstep_true]
    split
    · next h3 => exact ⟨by omega, by omega⟩
    · next h3 => exact ⟨h1, h2⟩

theorem bstep_goodB (p : Nat × Bool) (h : goodB p) :
    goodB (bstep p.1 p.2) := by
  obtain ⟨c, u⟩ := p
  obtain ⟨h1, h2⟩ := h
  cases u
  · have h3 : 10 ≤ c := h2 rfl
    rw [bstep_false]
    split
    · next h4 => exact ⟨by omega, fun _ => by omega⟩
    · next h4 => exact ⟨h1, fun h5 => by simp at h5⟩
  · rw [bstep_true]
    split
    · next h4 => exact ⟨by omega, fun h5 => by simp at h5⟩
    · next h4 => exact ⟨h1, fun _ => by omega⟩

/-- the ramp direction flips only at the bounds: 254 on the way up, 10 on
the way down (given the direction/bound invariant). -/
theorem bstep_flip (p : Nat × Bool) (hg : goodB p)
    (h : (bstep p.1 p.2).2 ≠ p.2) : p.1 = 254 ∨ p.1 = 10 := by
  obtain ⟨c, u⟩ := p
  obtain ⟨h1, h2⟩ := hg
  cases u
  · right
    rw [bstep_false] at h
    by_cases h3 : c > 10
    · rw [if_pos h3] at h
      simp at h
    · have h4 := h2 rfl
      omega
  · left
    rw [bstep_true] at h
    by_cases h3 : c < 254
    · rw [if_pos h3] at h
      simp at h
    · omega

theorem bIter_add (n m : Nat) (p : Nat × Bool) :
    bIter (n + m) p = bIter m (bIter n p) := by
  induction m with
  | zero => rfl
  | succ k ih =>
    rw [Nat.add_succ]
    show bstep (bIter (n + k) p).1 (bIter (n + k) p).2 = _
    rw [ih]
    rfl

theorem bIter_goodB (p : Nat × Bool) (h : goodB p) (n : Nat) :
    goodB (bIter n p) := by
  induction n with
  | zero => exact h
  | succ k ih => exact bstep_goodB _ ih

theorem bIter_inRange (p : Nat × Bool) (h : inRange p) (n : Nat) :
    inRange (bIter n p) := by
  induction n with
  | zero => exact h
  | succ k ih => exact bstep_inRange _ ih

/-- on a run with the switch never pressed, the brightness pair is the pure
iterate of the triangle step from the starting pair. -/
theorem run_false_bc (s : St) (n : Nat) :
    ((run (fun _ => false) s n).brightness_control,
     (run (fun _ => false) s n).brighness_up) =
      bIter n (s.brightness_control, s.brighness_up) := by
  induction n with
  | zero => rfl
  | succ m ih =>
    have h1 := congrArg Prod.fst ih
    have h2 := congrArg Prod.snd ih
    simp only at h1 h2
    show ((tick false (run (fun _ => false) s m)).brightness_control,
          (tick false (run (fun _ => false) s m)).brighness_up) = _
    have ht := tick_bc false (run (fun _ => false) s m)
    simp only [false_and, if_neg] at ht
    rw [ht, h1, h2]
    rfl

set_option maxRecDepth 8000 in
theorem bIter255 : bIter 255 (0, true) = (254, false) := by decide

set_option maxRecDepth 8000 in
theorem bIter254 : bIter 254 (0, true) = (254, true) := by decide

set_option maxRecDepth 16000 in
theorem bIter_period :
    bIter (2 * (254 - 10) + 2) (254, false) = (254, false) := by decide

/-- counterexample for C6: from startup, the very first tick leaves the
brightness at 1, below the claimed lower bound 10 (it starts at 0 and
climbs; the `[10, 254]` band is only reached after the initial ascent). -/
theorem c6_brightness_cex :
    (tick false sInit).brightness_control = 1 ∧
    ¬ 10 ≤ (tick false sInit).brightness_control := by
  decide

/-- C6 (amended): brightness never exceeds 254 on any input sequence from
startup; on the press-free run from startup the ramp direction reverses
only at 254 or 10; and from tick 255 on, the press-free sequence stays in
`[10, 254]` and is periodic with period `2×(254−10) + 2 = 490` (not
`2×(254−10)`, because the triangle wave dwells one extra tick at each
bound). -/
theorem c6_brightness :
    (∀ (u : Nat → Bool) (n : Nat), (run u sInit n).brightness_control ≤ 254) ∧
    (∀ n : Nat,
      (run (fun _ => false) sInit (n + 1)).brighness_up ≠
        (run (fun _ => false) sInit n).brighness_up →
      (run (fun _ => false) sInit n).brightness_control = 254 ∨
      (run (fun _ => false) sInit n).brightness_control = 10) ∧
    (∀ n : Nat, 255 ≤ n →
      10 ≤ (run (fun _ => false) sInit n).brightness_control ∧
      (run (fun _ => false) sInit n).brightness_control ≤ 254 ∧
      (run (fun _ => false) sInit (n + (2 * (254 - 10) + 2))).brightness_control =
        (run (fun _ => false) sInit n).brightness_control ∧
      (run (fun _ => false) sInit (n + (2 * (254 - 10) + 2))).brighness_up =
        (run (fun _ => false) sInit n).brighness_up) := by
  have lk : ∀ n, ((run (fun _ => false) sInit n).brightness_control,
      (run (fun _ => false) sInit n).brighness_up) = bIter n (0, true) :=
    fun n => run_false_bc sInit n
  have good0 : goodB (0, true) := ⟨by omega, fun h => by simp at h⟩
  refine ⟨?_, ?_, ?_⟩
  · intro u n
    induction n with
    | zero =>
      show sInit.brightness_control ≤ 254
      decide
    | succ m ih =>
      rw [run_succ]
      have ht := congrArg Prod.fst (tick_bc (u m) (run u sInit m))
      simp only at ht
      rw [ht]
      apply bstep_le
      split
      · omega
      · exact ih
  · intro n hne
    have e1 := congrArg Prod.snd (lk n)
    have e2 := congrArg Prod.snd (lk (n + 1))
    simp only at e1 e2
    rw [e1, e2] at hne
    have hflip : (bstep (bIter n (0, true)).1 (bIter n (0, true)).2).2 ≠
        (bIter n (0, true)).2 := hne
    have hres := bstep_flip (bIter n (0, true)) (bIter_goodB _ good0 n) hflip
    have f1 := congrArg Prod.fst (lk n)
    simp only at f1
    rw [f1]
    exact hres
  · intro n hn
    obtain ⟨m, rfl⟩ : ∃ m, n = 255 + m := ⟨n - 255, by omega⟩
    have key : ∀ q, bIter (255 + q) (0, true) = bIter q (254, false) := by
      intro q
      rw [bIter_add 255 q (0, true), bIter255]
    have hper : bIter (255 + m + (2 * (254 - 10) + 2)) (0, true) =
        bIter m (254, false) := by
      rw [Nat.add_assoc]
      rw [key (m + (2 * (254 - 10) + 2))]
      rw [Nat.add_comm m (2 * (254 - 10) + 2)]
      rw [bIter_add (2 * (254 - 10) + 2) m (254, false)]
      rw [bIter_period]
    obtain ⟨i1, i2⟩ := bIter_inRange (254, false) ⟨by omega, by omega⟩ m
    have lA1 := congrArg Prod.fst (lk (255 + m))
    have lA2 := congrArg Prod.snd (lk (255 + m))
    have lB1 := congrArg Prod.fst (lk (255 + m + (2 * (254 - 10) + 2)))
    have lB2 := congrArg Prod.snd (lk (255 + m + (2 * (254 - 10) + 2)))
    simp only at lA1 lA2 lB1 lB2
    rw [key m] at lA1 lA2
    rw [hper] at lB1 lB2
    refine ⟨?_, ?_, ?_, ?_⟩
    · rw [lA1]
      exact i1
    · rw [lA1]
      exact i2
    · rw [lB1, lA1]
    · rw [lB2, lA2]

/-- witness for C6 (amended): a bound instance, the direction flip at tick
254 happening at brightness 254, and the lower bound at tick 255. -/
theorem c6_brightness_witness :
    (run (fun _ => false) sInit 3).brightness_control ≤ 254 ∧
    ((run (fun _ => false) sInit 254).brightness_control = 254 ∨
     (run (fun _ => false) sInit 254).brightness_control = 10) ∧
    10 ≤ (run (fun _ => false) sInit 255).brightness_control := by
  obtain ⟨a, b, c⟩ := c6_brightness
  refine ⟨a (fun _ => false) 3, b 254 ?_, (c 255 le_rfl).1⟩
  have l1 : ((run (fun _ => false) sInit 255).brightness_control,
      (run (fun _ => false) sInit 255).brighness_up) = bIter 255 (0, true) :=
    run_false_bc sInit 255
  have l2 : ((run (fun _ => false) sInit 254).brightness_control,
      (run (fun _ => false) sInit 254).brighness_up) = bIter 254 (0, true) :=
    run_false_bc sInit 254
  have e1 := congrArg Prod.snd l1
  have e2 := congrArg Prod.snd l2
  simp only at e1 e2
  rw [e1, e2, bIter255, bIter254]
  decide

end RelayBypass
